import Mathlib

/-!
Shallow embedding of the sparse direct solver in `SparseDirectMethod.cpp`
(class `SparseDirectMethod`), together with theorems settling the claims
about its specification.

Conventions of the embedding:
* `double` values are modelled as `ℚ`.  Every numeric fact asserted below
  evaluates arithmetic that is exact in IEEE double as well (small integers
  and dyadic rationals), except where a comment notes otherwise.  Division
  by zero yields `0` in `ℚ` and `inf` in IEEE; no theorem below asserts a
  value produced downstream of a zero divisor.
* `Eigen::SparseMatrix<double>` is modelled as a dimension pair plus the
  list of stored entries (triplets); iteration over `InnerIterator`
  corresponds to iteration over the entry list.
* `std::vector` is modelled as `List`; `vector::resize(n, d)` keeps the
  first `n` elements and pads with `d`, which `resizeL` mirrors.
* `std::set<int>` is modelled as `Finset ℕ`; iteration over a `std::set`
  is in ascending order, mirrored by `Finset.sort (· ≤ ·)`.
* exceptions are modelled by an error type; the C++ member functions throw
  before mutating any member on every failure path, so the embedded
  `analyzePattern` and `factorize` return the unchanged state paired with
  `some error` on those paths.
-/

namespace SDM

/-- Error taxonomy used by the specification for the exceptions thrown by
`SparseDirectMethod` (the C++ code throws `std::invalid_argument` and
`std::runtime_error` with messages; the spec names them as below). -/
inductive SolverError where
  | DimensionError
  | NotSquareError
  | PatternNotAnalyzedError
  | DimensionMismatchError
  | NotFactorizedError
  deriving DecidableEq

/-- A sparse matrix: dimensions plus the stored (row, col, value) entries,
modelling `Eigen::SparseMatrix<double>`.  C++ `int` dimensions are
nonnegative in every reachable use, so `ℕ` is used. -/
structure Mat where
  rows : ℕ
  cols : ℕ
  entries : List (ℕ × ℕ × ℚ)
  deriving DecidableEq

/-- Indices of all stored entries are in range (Eigen guarantees this for
a well-formed matrix; out-of-range indices would be UB in the C++). -/
def Mat.WellFormed (m : Mat) : Prop :=
  ∀ e ∈ m.entries, e.1 < m.rows ∧ e.2.1 < m.cols

instance (m : Mat) : Decidable m.WellFormed := by
  unfold Mat.WellFormed; infer_instance

/-- `std::vector::resize(n, d)`: keep the first `n` elements, pad with `d`
up to length `n`. -/
def resizeL {α : Type} (l : List α) (n : ℕ) (d : α) : List α :=
  l.take n ++ List.replicate (n - l.length) d

/-- Lines 94-102 of `SparseDirectMethod.cpp`: the undirected adjacency
structure built from the off-diagonal stored entries
(`adjacency[row].insert(col); adjacency[col].insert(row)`). -/
def buildAdjacency (entries : List (ℕ × ℕ × ℚ)) : ℕ → Finset ℕ :=
  entries.foldl
    (fun adj e =>
      if e.1 ≠ e.2.1 then
        fun v =>
          if v = e.1 then insert e.2.1 (adj v)
          else if v = e.2.1 then insert e.1 (adj v)
          else adj v
      else adj)
    (fun _ => ∅)

/-- Working state of `buildEliminationTreeProper` (lines 78-128):
the `visited` flags, the parent array (`-1` meaning no parent, as in the
C++), the `etree_children` lists and the `elimination_tree` lists. -/
structure ETreeState where
  visited : Finset ℕ
  parent : List Int
  childrenE : List (List ℕ)
  elimT : List (List ℕ)
  deriving DecidableEq

/-- Append `x` to the `i`-th list of `l` (the effect of
`l[i].push_back(x)`; out-of-range `i` is UB in C++ and a no-op here,
and every use below is in range). -/
def pushAt (l : List (List ℕ)) (i : ℕ) (x : ℕ) : List (List ℕ) :=
  l.set i (l.getD i [] ++ [x])

/-- One iteration of the loop at lines 107-127: mark `v` visited, collect
the unvisited neighbours, and if any exist take the maximum-index one as
parent, recording `v` as its child. -/
def etreeStep (adj : ℕ → Finset ℕ) (st : ETreeState) (v : ℕ) : ETreeState :=
  let visited' := insert v st.visited
  let unvisited := (adj v).filter (fun u => u ∉ visited')
  if h : unvisited.Nonempty then
    let p := unvisited.max' h
    { visited := visited'
      parent := st.parent.set v (Int.ofNat p)
      childrenE := pushAt st.childrenE p v
      elimT := pushAt st.elimT p v }
  else
    { st with visited := visited' }

/-- `buildEliminationTreeProper` (lines 78-128) on a solver whose previous
symbolic data is `parent0` / `children0`: `elimination_tree` is cleared
and resized, `etree_parent` is resized with default `-1`, `etree_children`
is resized (NOT cleared), and then the elimination loop runs for
`i = 0, …, n-1`.  The permutation arrays (lines 88-91) are the identity
and are inlined (`v = perm_to_elim[i] = i`). -/
def buildEtree (adj : ℕ → Finset ℕ) (n : ℕ)
    (parent0 : List Int) (children0 : List (List ℕ)) : ETreeState :=
  (List.range n).foldl (etreeStep adj)
    { visited := ∅
      parent := resizeL parent0 n (-1)
      childrenE := resizeL children0 n []
      elimT := List.replicate n [] }

/-- Verification helper: the elimination loop run for its first `k`
iterations from an arbitrary starting state. -/
def etreeRun (adj : ℕ → Finset ℕ) (init : ETreeState) (k : ℕ) : ETreeState :=
  (List.range k).foldl (etreeStep adj) init

/-- Verification helper: the parent the elimination loop assigns to `v`.
Since variable `v` is processed after exactly `0, …, v-1` have been
visited and `v` itself is marked first, the unvisited neighbours of `v`
at that moment are precisely its neighbours with index above `v`; the
loop picks the maximum one, if any. -/
def parentSpec (adj : ℕ → Finset ℕ) (v : ℕ) : Option ℕ :=
  if h : ((adj v).filter (fun u => v < u)).Nonempty then
    some (((adj v).filter (fun u => v < u)).max' h)
  else none

/-- Ordered-set insertion: `std::set<int>::insert` on the model of a
`std::set<int>` as its ascending element list. -/
def setInsert (x : ℕ) : List ℕ → List ℕ
  | [] => [x]
  | y :: ys => if x < y then x :: y :: ys else if x = y then y :: ys else y :: setInsert x ys

/-- The ascending element list of the `std::set<int>` obtained by
inserting the elements of `l` into the set `s`. -/
def setInsertAll (s : List ℕ) (l : List ℕ) : List ℕ :=
  l.foldl (fun s x => setInsert x s) s

/-- A front (struct `Front` in `SparseDirectMethod.h`), restricted to its
symbolic fields; the numeric fields `F`, `L`, `D` are the output of
`processFront` and are modelled separately (`FrontNum`).  `vars` models
the `std::set<int> variables` as its ascending element list. -/
structure Front where
  id : ℕ
  vars : List ℕ
  eliminated_vars : List ℕ
  remaining_vars : List ℕ
  dependencies : List ℕ
  dependents : List ℕ
  deriving DecidableEq

/-- `getVariablesForNode` (lines 186-198): the node itself plus its
elimination-tree children, as the ascending element list of the set. -/
def getVariablesForNode (children : ℕ → List ℕ) (node : ℕ) : List ℕ :=
  setInsertAll (setInsert node []) (children node)

/-- The `dependents` list of front `c` produced by the loop at lines
144-150: for each `i` in ascending order, for each occurrence of `c` in
`etree_children[i]`, an entry `i` is pushed onto `fronts[c]->dependents`. -/
def dependentsOf (children : ℕ → List ℕ) (n : ℕ) (c : ℕ) : List ℕ :=
  (List.range n).flatMap
    (fun i => (children i).filterMap (fun ch => if ch = c then some i else none))

/-- `createFrontForNode` (lines 166-184) combined with the dependency
loop of `buildAssemblyTreeProper` (lines 144-150).  `remaining_vars` is
filled by iterating the `std::set` `variables` in ascending order and
skipping the node itself; `dependencies` of front `i` receives exactly
the elements of `etree_children[i]` in order. -/
def buildFronts (children : ℕ → List ℕ) (n : ℕ) : List Front :=
  (List.range n).map (fun i =>
    { id := i
      vars := getVariablesForNode children i
      eliminated_vars := [i]
      remaining_vars :=
        (getVariablesForNode children i).filter (fun v => v ≠ i)
      dependencies := children i
      dependents := dependentsOf children n i })

/-- The member state of a `SparseDirectMethod` object. -/
structure SolverState where
  pattern_analyzed : Bool
  factorization_done : Bool
  rows : ℕ
  cols : ℕ
  etree_parent : List Int
  etree_children : List (List ℕ)
  elimination_tree : List (List ℕ)
  fronts : List Front
  deriving DecidableEq

/-- The state after the constructor (lines 8-10): flags false, sizes 0,
containers empty. -/
def freshSolver : SolverState :=
  { pattern_analyzed := false
    factorization_done := false
    rows := 0
    cols := 0
    etree_parent := []
    etree_children := []
    elimination_tree := []
    fronts := [] }

/-- `analyzePattern` (lines 15-34): validation, then
`buildEliminationTreeProper` and `buildAssemblyTreeProper`.  All throwing
paths precede any mutation, so on error the state is returned unchanged.
(`matrix.rows() <= 0` for an `Eigen` matrix is `rows = 0` in ℕ.) -/
def analyzePattern (s : SolverState) (m : Mat) : SolverState × Option SolverError :=
  if m.rows = 0 ∨ m.cols = 0 then (s, some .DimensionError)
  else if m.rows ≠ m.cols then (s, some .NotSquareError)
  else
    let n := m.rows
    let adj := buildAdjacency m.entries
    let st := buildEtree adj n s.etree_parent s.etree_children
    let childrenF := fun i => st.childrenE.getD i []
    ({ s with
        pattern_analyzed := true
        rows := n
        cols := n
        etree_parent := st.parent
        etree_children := st.childrenE
        elimination_tree := st.elimT
        fronts := buildFronts childrenF n }, none)

/-- The numeric data computed for one front by `processFront` (lines
320-354): the assembled frontal matrix `F` and the factors `L`, `D`
stored by `factorizeFrontalMatrix` (lines 382-413).  Matrices are total
functions on ℕ; only indices below `size` are meaningful. -/
structure FrontNum where
  size : ℕ
  F : ℕ → ℕ → ℚ
  L : ℕ → ℕ → ℚ
  D : ℕ → ℚ

/-- Local index of global variable `v` inside the front: `var_to_idx`
(lines 327-331) maps the `k`-th smallest variable to local index `k`,
i.e. the position in the ascending element list. -/
def varIdx (vars : List ℕ) (v : ℕ) : ℕ :=
  vars.indexOf v

/-- Lines 333-347: fill the frontal matrix with the stored entries of the
original matrix whose row and column both lie in the front, each write
overwriting the previous value at that position (`F(r,c) = it.value()`). -/
def fillF (vars : List ℕ) (entries : List (ℕ × ℕ × ℚ)) : ℕ → ℕ → ℚ :=
  entries.foldl
    (fun F e =>
      if e.1 ∈ vars ∧ e.2.1 ∈ vars then
        fun i j =>
          if i = varIdx vars e.1 ∧ j = varIdx vars e.2.1 then e.2.2 else F i j
      else F)
    (fun _ _ => 0)

/-- `addChildContributions` (lines 356-371): the loop over the children
of the front contains no code that modifies the frontal matrix (the body
is a comment: "For now, we'll skip the detailed computation"), so the
function is the identity on `F`. -/
def addChildContributions (F : ℕ → ℕ → ℚ) : ℕ → ℕ → ℚ :=
  F

/-- One iteration `i` of the LDLᵀ loop in `factorizeFrontalMatrix`
(lines 393-407): compute `d = F(i,i) − Σ_{k<i} L(i,k)² D(k)`, store
`D(i) = d`, then for `i < j < m` store
`L(j,i) = (F(j,i) − Σ_{k<i} L(j,k) L(i,k) D(k)) / D(i)`.
ℚ-division by zero yields 0 where IEEE yields ±inf/NaN; no theorem below
relies on a value computed after a zero pivot. -/
def ldlStep (F : ℕ → ℕ → ℚ) (m : ℕ) (st : (ℕ → ℕ → ℚ) × (ℕ → ℚ)) (i : ℕ) :
    (ℕ → ℕ → ℚ) × (ℕ → ℚ) :=
  let L := st.1
  let D := st.2
  let d := F i i - ∑ k in Finset.range i, L i k ^ 2 * D k
  let D' := fun t => if t = i then d else D t
  let L' := fun j t =>
    if t = i ∧ i < j ∧ j < m then
      (F j i - ∑ k in Finset.range i, L j k * L i k * D k) / d
    else L j t
  (L', D')

/-- `factorizeFrontalMatrix` (lines 382-413): `L` starts as the identity,
`D` as zero, and the loop runs for `i = 0, …, m-1`.  There is no pivot
magnitude check anywhere in the function, and it cannot fail. -/
def ldlFactor (F : ℕ → ℕ → ℚ) (m : ℕ) : (ℕ → ℕ → ℚ) × (ℕ → ℚ) :=
  (List.range m).foldl (ldlStep F m)
    (fun j t => if j = t then 1 else 0, fun _ => 0)

/-- `processFront` (lines 320-354): assemble the frontal matrix from the
original entries, apply `addChildContributions` (a no-op), and factorize.
A pure function of the matrix and the front; it raises no error. -/
def processFront (m : Mat) (f : Front) : FrontNum :=
  let size := f.vars.length
  let F := addChildContributions (fillF f.vars m.entries)
  let LD := ldlFactor F size
  { size := size, F := F, L := LD.1, D := LD.2 }

/-- `factorize` (lines 36-48): state and shape checks throw before any
numeric work; then `assembleAndFactorParallel` processes every front and
`factorization_done` is set.  The per-front numeric output is the pure
function `processFront`, independent of the parallel schedule; the
scheduler itself is modelled as a transition system below (`Sched`). -/
def factorize (s : SolverState) (m : Mat) :
    (SolverState × List FrontNum) × Option SolverError :=
  if ¬ s.pattern_analyzed then ((s, []), some .PatternNotAnalyzedError)
  else if m.rows ≠ s.rows ∨ m.cols ≠ s.cols then ((s, []), some .DimensionMismatchError)
  else (({ s with factorization_done := true }, s.fronts.map (processFront m)), none)

/-- `forwardSubstitution` (lines 415-428): apart from reading the size,
the function body performs no writes to `x` ("Since we don't store the
complete L matrix, we'll skip detailed computation"). -/
def forwardSubstitution (x : List ℚ) : List ℚ :=
  x

/-- `backwardSubstitution` (lines 430-442): likewise performs no writes
to `x`. -/
def backwardSubstitution (x : List ℚ) : List ℚ :=
  x

/-- `solve` (lines 50-68): state and shape checks, then
`x = rhs; forwardSubstitution(x); backwardSubstitution(x); return x`. -/
def solve (s : SolverState) (rhs : List ℚ) : Except SolverError (List ℚ) :=
  if ¬ s.factorization_done then .error .NotFactorizedError
  else if rhs.length ≠ s.rows then .error .DimensionMismatchError
  else .ok (backwardSubstitution (forwardSubstitution rhs))

/-- Reference (verification-side) matrix-vector product `A·x` from the
stored entries: row `i` of the result sums `value·x[col]` over the
entries in row `i`. -/
def matVec (m : Mat) (x : List ℚ) : List ℚ :=
  (List.range m.rows).map (fun i =>
    (m.entries.filter (fun e => e.1 = i)).foldl
      (fun acc e => acc + e.2.2 * x.getD e.2.1 0) 0)

/-- Reference squared Euclidean norm of `A·x − b`. -/
def residualSq (m : Mat) (x b : List ℚ) : ℚ :=
  ∑ i in Finset.range m.rows, ((matVec m x).getD i 0 - b.getD i 0) ^ 2

/-- The 5×5 test matrix of the spec scenario (and of
`correctness_test.cpp` / `correct_sparse_solver.cpp`): diagonal
`[4,5,4,5,4]`, off-diagonal `−1` between consecutive indices. -/
def A5 : Mat :=
  { rows := 5
    cols := 5
    entries :=
      [(0, 0, 4), (1, 1, 5), (2, 2, 4), (3, 3, 5), (4, 4, 4),
       (0, 1, -1), (1, 0, -1), (1, 2, -1), (2, 1, -1),
       (2, 3, -1), (3, 2, -1), (3, 4, -1), (4, 3, -1)] }

/-- The right-hand side `[1,2,3,4,5]` of the spec scenario. -/
def b5 : List ℚ :=
  [1, 2, 3, 4, 5]

/-- The fatal-pivot scenario matrix `[[0,1],[1,0]]` (zeros unstored). -/
def B2 : Mat :=
  { rows := 2, cols := 2, entries := [(0, 1, 1), (1, 0, 1)] }

/-- A 3×3 tridiagonal matrix (diagonal 4, off-diagonal −1) used for the
child-contribution claim. -/
def T3 : Mat :=
  { rows := 3
    cols := 3
    entries :=
      [(0, 0, 4), (1, 1, 4), (2, 2, 4),
       (0, 1, -1), (1, 0, -1), (1, 2, -1), (2, 1, -1)] }

/-- A 2×2 matrix with a symmetric off-diagonal couple, used for the
`analyzePattern` idempotence claim. -/
def M2 : Mat :=
  { rows := 2, cols := 2, entries := [(0, 0, 4), (1, 1, 4), (0, 1, -1), (1, 0, -1)] }

/-- Default front used with `List.getD`. -/
def dFront : Front :=
  { id := 0, vars := [], eliminated_vars := [], remaining_vars := [],
    dependencies := [], dependents := [] }

/-- Default numeric front data used with `List.getD`. -/
def dFrontNum : FrontNum :=
  { size := 0, F := fun _ _ => 0, L := fun _ _ => 0, D := fun _ => 0 }

/-- Formalisation of the SPEC wording for claim C4 (spec §4.3 step 2 and
glossary "Schur-complement contribution"), not of any source function:
the trailing Schur-complement value of a completed child front, i.e. the
update that eliminating the leading variables of the child applies to the
diagonal entry of its last (maximum, hence shared-with-parent) variable.
In the LDLᵀ factors this is `D(last) − F(last,last)`; per the claim it is
to be ADDED (element-wise accumulation) into the parent entry at the
matching offset. -/
def specSchurUpdate (fn : FrontNum) : ℚ :=
  fn.D (fn.size - 1) - fn.F (fn.size - 1) (fn.size - 1)

/-! ### The parallel scheduler (`processFrontsInParallel`, lines 231-318)

Modelled as a transition system over the shared state that the worker
threads mutate under `fronts_mutex`.  A worker is an index into an
unbounded pool (the C++ spawns `hardware_concurrency ≥ 1` threads; the
spec makes the count configurable, and every theorem below holds for
every pool size because transitions only mention finitely many workers).

Each loop iteration of a worker (lines 248-307) decomposes into two
atomic transitions on the shared state:

* `claimStep`: the critical section at lines 252-293.  The worker scans
  `fronts` in index order for the FIRST front that is not `processed` and
  all of whose (in-range) dependencies are `processed`, and remembers it
  in the thread-local `front_to_process`.  Note that this critical
  section writes NOTHING to the shared state: the `processed` flag of the
  chosen front is not set here.
* `finishStep`: after `processFront` runs outside the lock (lines
  296-297, a pure function of the matrix and the front, modelled by
  `processFront` above), the critical section at lines 299-303 sets
  `processed = true` and increments the completion counter.  `pcount i`
  is a history variable counting how many times front `i` has been
  processed (i.e. how many `finishStep`s it has undergone; each claim is
  followed by exactly one `processFront` call and one `finishStep`). -/

/-- Thread-local state of one worker: either between claims, or holding
a front it has claimed (its `front_to_process`). -/
inductive WStatus where
  | idle
  | holding (i : ℕ)
  deriving DecidableEq

/-- Shared scheduler state: which fronts are processed, what each worker
holds, and the per-front completion history. -/
structure SchedState where
  processedS : Finset ℕ
  workers : ℕ → WStatus
  pcount : ℕ → ℕ

/-- Front `i` passes the scan test of lines 255-272: it exists, is not
processed, and all its in-range dependencies are processed. -/
def ready (deps : ℕ → List ℕ) (n : ℕ) (st : SchedState) (i : ℕ) : Prop :=
  i < n ∧ i ∉ st.processedS ∧ ∀ d ∈ deps i, d < n → d ∈ st.processedS

instance (deps : ℕ → List ℕ) (n : ℕ) (st : SchedState) (i : ℕ) :
    Decidable (ready deps n st i) := by
  unfold ready; infer_instance

/-- The scan at lines 255-273 returns the first ready front. -/
def firstReady (deps : ℕ → List ℕ) (n : ℕ) (st : SchedState) (i : ℕ) : Prop :=
  ready deps n st i ∧ ∀ j < i, ¬ ready deps n st j

/-- One atomic transition of the scheduler. -/
inductive SchedStep (deps : ℕ → List ℕ) (n : ℕ) : SchedState → SchedState → Prop where
  | claimStep (st : SchedState) (w i : ℕ) :
      st.workers w = .idle →
      firstReady deps n st i →
      SchedStep deps n st
        { st with workers := fun w' => if w' = w then .holding i else st.workers w' }
  | finishStep (st : SchedState) (w i : ℕ) :
      st.workers w = .holding i →
      SchedStep deps n st
        { processedS := insert i st.processedS
          workers := fun w' => if w' = w then .idle else st.workers w'
          pcount := fun j => if j = i then st.pcount j + 1 else st.pcount j }

/-- Initial scheduler state (lines 221-228: all `processed` flags reset,
workers started idle). -/
def schedInit : SchedState :=
  { processedS := ∅, workers := fun _ => .idle, pcount := fun _ => 0 }

/-- States reachable by some interleaving of the workers. -/
def SchedReach (deps : ℕ → List ℕ) (n : ℕ) (st : SchedState) : Prop :=
  Relation.ReflTransGen (SchedStep deps n) schedInit st

/-! ### Shared concrete states -/

/-- The solver after `analyzePattern(A5)` on a fresh object. -/
def s1A5 : SolverState :=
  (analyzePattern freshSolver A5).1

/-- The solver after a successful `factorize(A5)` following
`analyzePattern(A5)`. -/
def s2A5 : SolverState :=
  (factorize s1A5 A5).1.1

/-- The solver after `analyzePattern(B2)` on a fresh object. -/
def s1B2 : SolverState :=
  (analyzePattern freshSolver B2).1

/-! ### General lemmas -/

theorem resizeL_length {α : Type} (l : List α) (n : ℕ) (d : α) :
    (resizeL l n d).length = n := by
  simp [resizeL]
  omega

theorem resizeL_self {α : Type} (l : List α) (d : α) :
    resizeL l l.length d = l := by
  simp [resizeL]

/-- The adjacency fold only ever inserts indices drawn from the entry
list, so all neighbours are below `n` when the entries are. -/
theorem buildAdjacency_lt (entries : List (ℕ × ℕ × ℚ)) (n : ℕ)
    (hwf : ∀ e ∈ entries, e.1 < n ∧ e.2.1 < n) :
    ∀ v u, u ∈ buildAdjacency entries v → u < n := by
  unfold buildAdjacency
  induction entries using List.reverseRecOn with
  | nil => simp
  | append_singleton es e ih =>
      rcases e with ⟨r, c, q⟩
      have hr : r < n := (hwf (r, c, q) (by simp)).1
      have hc : c < n := (hwf (r, c, q) (by simp)).2
      have ih' := ih (fun e he => hwf e (List.mem_append_left _ he))
      intro v u hu
      simp only [List.foldl_append, List.foldl_cons, List.foldl_nil] at hu
      by_cases hrc : r = c
      · simp only [ne_eq, hrc, not_true_eq_false, if_false] at hu
        exact ih' v u hu
      · simp only [ne_eq, hrc, not_false_eq_true, if_true] at hu
        by_cases hv : v = r
        · simp only [hv, if_pos rfl] at hu
          rcases Finset.mem_insert.mp hu with h | h
          · omega
          · exact ih' r u h
        · simp only [if_neg hv] at hu
          by_cases hv' : v = c
          · simp only [hv', if_pos rfl] at hu
            rcases Finset.mem_insert.mp hu with h | h
            · omega
            · exact ih' c u h
          · simp only [if_neg hv'] at hu
            exact ih' v u hu

theorem pushAt_length (l : List (List ℕ)) (i : ℕ) (x : ℕ) :
    (pushAt l i x).length = l.length := by
  simp [pushAt]

theorem pushAt_getD_self (l : List (List ℕ)) (i : ℕ) (x : ℕ) (h : i < l.length) :
    (pushAt l i x).getD i [] = l.getD i [] ++ [x] := by
  simp [pushAt, List.getD_eq_getElem?_getD, List.getElem?_set_eq h]

theorem pushAt_getD_ne (l : List (List ℕ)) (i : ℕ) (x : ℕ) (q : ℕ) (h : q ≠ i) :
    (pushAt l i x).getD q [] = l.getD q [] := by
  simp [pushAt, List.getD_eq_getElem?_getD, List.getElem?_set_ne (Ne.symm h)]

theorem max'_congr_sets {s t : Finset ℕ} (hst : s = t) (hs : s.Nonempty) (ht : t.Nonempty) :
    s.max' hs = t.max' ht := by
  subst hst
  rfl

/-- If the loop assigns parent `p` to `v`, then `p` is a neighbour of `v`
with larger index. -/
theorem parentSpec_mem {adj : ℕ → Finset ℕ} {v p : ℕ}
    (h : parentSpec adj v = some p) : p ∈ adj v ∧ v < p := by
  unfold parentSpec at h
  split at h
  · rename_i hne
    injection h with h
    subst h
    have := Finset.max'_mem _ hne
    simpa [Finset.mem_filter] using this
  · exact absurd h (by simp)

/-- The assigned parent is the maximum among the neighbours above `v`. -/
theorem parentSpec_is_max {adj : ℕ → Finset ℕ} {v p : ℕ}
    (h : parentSpec adj v = some p) : ∀ u ∈ adj v, v < u → u ≤ p := by
  intro u hu hvu
  unfold parentSpec at h
  split at h
  · rename_i hne
    injection h with h
    subst h
    exact Finset.le_max' _ u (Finset.mem_filter.mpr ⟨hu, hvu⟩)
  · exact absurd h (by simp)

/-- If the loop assigns no parent to `v`, then `v` has no neighbour with
larger index. -/
theorem parentSpec_none {adj : ℕ → Finset ℕ} {v : ℕ}
    (h : parentSpec adj v = none) : ∀ u ∈ adj v, u ≤ v := by
  intro u hu
  unfold parentSpec at h
  split at h
  · exact absurd h (by simp)
  · rename_i hne
    by_contra hlt
    exact hne ⟨u, Finset.mem_filter.mpr ⟨hu, by omega⟩⟩

/-- One loop iteration, assuming the visited set is exactly `{0,…,v-1}`
(which it is when `v` is processed in ascending order): the unvisited
neighbours of `v` are its neighbours above `v`, and the iteration
follows `parentSpec`. -/
theorem etreeStep_eq (adj : ℕ → Finset ℕ) (st : ETreeState) (v : ℕ)
    (hv : st.visited = Finset.range v) :
    etreeStep adj st v =
      match parentSpec adj v with
      | some p =>
          { visited := Finset.range (v + 1)
            parent := st.parent.set v (Int.ofNat p)
            childrenE := pushAt st.childrenE p v
            elimT := pushAt st.elimT p v }
      | none => { st with visited := Finset.range (v + 1) } := by
  have hins : insert v st.visited = Finset.range (v + 1) := by
    rw [hv, Finset.range_succ]
  have hset : (adj v).filter (fun u => u ∉ insert v st.visited) =
      (adj v).filter (fun u => v < u) := by
    apply Finset.filter_congr
    intro u _
    rw [hins]
    simp only [Finset.mem_range, not_lt]
    omega
  unfold etreeStep parentSpec
  by_cases h : ((adj v).filter (fun u => v < u)).Nonempty
  · have h' : ((adj v).filter (fun u => u ∉ insert v st.visited)).Nonempty := by
      rw [hset]; exact h
    rw [dif_pos h', dif_pos h]
    have hmax : ((adj v).filter (fun u => u ∉ insert v st.visited)).max' h' =
        ((adj v).filter (fun u => v < u)).max' h :=
      max'_congr_sets hset h' h
    rw [hmax, hins]
  · have h' : ¬ ((adj v).filter (fun u => u ∉ insert v st.visited)).Nonempty := by
      rw [hset]; exact h
    rw [dif_neg h', dif_neg h, hins]

theorem etreeRun_succ (adj : ℕ → Finset ℕ) (init : ETreeState) (k : ℕ) :
    etreeRun adj init (k + 1) = etreeStep adj (etreeRun adj init k) k := by
  unfold etreeRun
  rw [List.range_succ, List.foldl_append, List.foldl_cons, List.foldl_nil]

/-- Exact characterisation of the elimination loop after `k ≤ n`
iterations, from any starting arrays of length `n`: the visited set is
`{0,…,k-1}`; the parent entry of each processed `v` is `parentSpec v`
when defined and the initial entry otherwise; each child list has
received, appended in ascending order, exactly the processed variables
whose assigned parent it is. -/
theorem etreeRun_spec (adj : ℕ → Finset ℕ) (n : ℕ) (init : ETreeState)
    (hvis : init.visited = ∅)
    (hp : init.parent.length = n) (hc : init.childrenE.length = n)
    (he : init.elimT.length = n)
    (hadj : ∀ v u, u ∈ adj v → u < n) :
    ∀ k, k ≤ n →
      (etreeRun adj init k).visited = Finset.range k ∧
      (etreeRun adj init k).parent.length = n ∧
      (etreeRun adj init k).childrenE.length = n ∧
      (etreeRun adj init k).elimT.length = n ∧
      (∀ v, k ≤ v → (etreeRun adj init k).parent[v]? = init.parent[v]?) ∧
      (∀ v, v < k →
        (etreeRun adj init k).parent[v]? =
          (match parentSpec adj v with
           | some p => some (Int.ofNat p)
           | none => init.parent[v]?)) ∧
      (∀ p, (etreeRun adj init k).childrenE.getD p [] =
        init.childrenE.getD p [] ++
          (List.range k).filter (fun v => parentSpec adj v = some p)) ∧
      (∀ p, (etreeRun adj init k).elimT.getD p [] =
        init.elimT.getD p [] ++
          (List.range k).filter (fun v => parentSpec adj v = some p)) := by
  intro k
  induction k with
  | zero =>
      intro _
      refine ⟨by simpa [etreeRun] using hvis, hp, hc, he, ?_, ?_, ?_, ?_⟩
      · intro v _; rfl
      · intro v hv; omega
      · intro p; simp [etreeRun]
      · intro p; simp [etreeRun]
  | succ k ih =>
      intro hk
      obtain ⟨ihv, ihp, ihc, ihe, ihuntouched, ihdone, ihch, ihel⟩ := ih (by omega)
      rw [etreeRun_succ, etreeStep_eq adj _ k ihv]
      rcases hps : parentSpec adj k with _ | p
      · refine ⟨rfl, ihp, ihc, ihe, ?_, ?_, ?_, ?_⟩
        · intro v hv
          exact ihuntouched v (by omega)
        · intro v hv
          rcases Nat.lt_succ_iff_lt_or_eq.mp hv with hv' | hv'
          · exact ihdone v hv'
          · subst hv'
            rw [ihuntouched v le_rfl, hps]
        · intro p
          rw [ihch p, List.range_succ, List.filter_append]
          have hfk : List.filter (fun v => decide (parentSpec adj v = some p)) [k] = [] := by
            simp [hps]
          rw [hfk, List.append_nil]
        · intro p
          rw [ihel p, List.range_succ, List.filter_append]
          have hfk : List.filter (fun v => decide (parentSpec adj v = some p)) [k] = [] := by
            simp [hps]
          rw [hfk, List.append_nil]
      · have hpn : p < n := hadj k p (parentSpec_mem hps).1
        refine ⟨rfl, by simpa using ihp, by simp [pushAt_length, ihc],
          by simp [pushAt_length, ihe], ?_, ?_, ?_, ?_⟩
        · intro v hv
          rw [List.getElem?_set_ne (by omega)]
          exact ihuntouched v (by omega)
        · intro v hv
          rcases Nat.lt_succ_iff_lt_or_eq.mp hv with hv' | hv'
          · rw [List.getElem?_set_ne (by omega)]
            exact ihdone v hv'
          · subst hv'
            rw [List.getElem?_set_eq (by omega), hps]
        · intro q
          by_cases hq : q = p
          · subst hq
            rw [pushAt_getD_self _ _ _ (by omega), ihch q, List.range_succ,
              List.filter_append]
            have hfk : List.filter (fun v => decide (parentSpec adj v = some q)) [k] = [k] := by
              simp [hps]
            rw [hfk, List.append_assoc]
          · rw [pushAt_getD_ne _ _ _ _ hq, ihch q, List.range_succ,
              List.filter_append]
            have hfk : (List.filter (fun v => decide (parentSpec adj v = some q)) [k]) = [] := by
              simp only [hps, List.filter_cons, List.filter_nil]
              simp only [Option.some.injEq, decide_eq_true_eq]
              rw [if_neg (fun h => hq h.symm)]
            rw [hfk, List.append_nil]
        · intro q
          by_cases hq : q = p
          · subst hq
            rw [pushAt_getD_self _ _ _ (by omega), ihel q, List.range_succ,
              List.filter_append]
            have hfk : List.filter (fun v => decide (parentSpec adj v = some q)) [k] = [k] := by
              simp [hps]
            rw [hfk, List.append_assoc]
          · rw [pushAt_getD_ne _ _ _ _ hq, ihel q, List.range_succ,
              List.filter_append]
            have hfk : (List.filter (fun v => decide (parentSpec adj v = some q)) [k]) = [] := by
              simp only [hps, List.filter_cons, List.filter_nil]
              simp only [Option.some.injEq, decide_eq_true_eq]
              rw [if_neg (fun h => hq h.symm)]
            rw [hfk, List.append_nil]

theorem resizeL_nil {α : Type} (n : ℕ) (d : α) :
    resizeL [] n d = List.replicate n d := by
  simp [resizeL]

/-- Reduction of a successful `analyzePattern` call. -/
theorem analyzePattern_ok (s : SolverState) (m : Mat)
    (hr : m.rows ≠ 0) (hsq : m.rows = m.cols) :
    analyzePattern s m =
      ({ s with
          pattern_analyzed := true
          rows := m.rows
          cols := m.rows
          etree_parent :=
            (buildEtree (buildAdjacency m.entries) m.rows s.etree_parent s.etree_children).parent
          etree_children :=
            (buildEtree (buildAdjacency m.entries) m.rows s.etree_parent s.etree_children).childrenE
          elimination_tree :=
            (buildEtree (buildAdjacency m.entries) m.rows s.etree_parent s.etree_children).elimT
          fronts :=
            buildFronts
              (fun i =>
                (buildEtree (buildAdjacency m.entries) m.rows s.etree_parent
                    s.etree_children).childrenE.getD i [])
              m.rows }, none) := by
  unfold analyzePattern
  rw [if_neg (by omega), if_neg (by omega)]

theorem mem_setInsert (x : ℕ) (l : List ℕ) (y : ℕ) :
    y ∈ setInsert x l ↔ y = x ∨ y ∈ l := by
  induction l with
  | nil => simp [setInsert]
  | cons z zs ih =>
      unfold setInsert
      by_cases h1 : x < z
      · simp [h1]
      · by_cases h2 : x = z
        · subst h2
          simp [h1]
        · simp [h1, h2, ih]
          tauto

theorem setInsert_toFinset (x : ℕ) (l : List ℕ) :
    (setInsert x l).toFinset = insert x l.toFinset := by
  ext y
  simp [mem_setInsert]

theorem setInsert_sorted (x : ℕ) (l : List ℕ) (h : l.Sorted (· < ·)) :
    (setInsert x l).Sorted (· < ·) := by
  induction l with
  | nil => simp [setInsert]
  | cons z zs ih =>
      unfold setInsert
      rcases List.sorted_cons.mp h with ⟨hz, hzs⟩
      by_cases h1 : x < z
      · rw [if_pos h1]
        refine List.sorted_cons.mpr ⟨?_, h⟩
        intro b hb
        rcases List.mem_cons.mp hb with hb | hb
        · omega
        · exact Nat.lt_trans h1 (hz b hb)
      · by_cases h2 : x = z
        · rw [if_neg h1, if_pos h2]
          exact h
        · rw [if_neg h1, if_neg h2]
          refine List.sorted_cons.mpr ⟨?_, ih hzs⟩
          intro b hb
          rcases (mem_setInsert x zs b).mp hb with hb | hb
          · omega
          · exact hz b hb

theorem setInsert_mem_eq (x : ℕ) (l : List ℕ) (hs : l.Sorted (· < ·)) (hx : x ∈ l) :
    setInsert x l = l := by
  induction l with
  | nil => cases hx
  | cons z zs ih =>
      unfold setInsert
      rcases List.sorted_cons.mp hs with ⟨hz, hzs⟩
      by_cases h1 : x < z
      · exfalso
        rcases List.mem_cons.mp hx with h | h
        · omega
        · exact absurd (hz x h) (by omega)
      · by_cases h2 : x = z
        · rw [if_neg h1, if_pos h2]
        · rw [if_neg h1, if_neg h2]
          have hxzs : x ∈ zs := by
            rcases List.mem_cons.mp hx with h | h
            · exact absurd h h2
            · exact h
          rw [ih hzs hxzs]

theorem setInsertAll_toFinset (l : List ℕ) :
    ∀ s : List ℕ, (setInsertAll s l).toFinset = s.toFinset ∪ l.toFinset := by
  induction l with
  | nil =>
      intro s
      simp [setInsertAll]
  | cons x xs ih =>
      intro s
      have hstep : setInsertAll s (x :: xs) = setInsertAll (setInsert x s) xs := rfl
      rw [hstep, ih (setInsert x s), setInsert_toFinset]
      ext y
      simp

theorem setInsertAll_sorted (l : List ℕ) :
    ∀ s : List ℕ, s.Sorted (· < ·) → (setInsertAll s l).Sorted (· < ·) := by
  induction l with
  | nil =>
      intro s hs
      exact hs
  | cons x xs ih =>
      intro s hs
      exact ih (setInsert x s) (setInsert_sorted x s hs)

theorem setInsertAll_subset_eq (l : List ℕ) :
    ∀ s : List ℕ, s.Sorted (· < ·) → (∀ x ∈ l, x ∈ s) → setInsertAll s l = s := by
  induction l with
  | nil =>
      intro s _ _
      rfl
  | cons x xs ih =>
      intro s hs hsub
      have hstep : setInsertAll s (x :: xs) = setInsertAll (setInsert x s) xs := rfl
      rw [hstep, setInsert_mem_eq x s hs (hsub x (by simp))]
      exact ih s hs (fun y hy => hsub y (by simp [hy]))

theorem getVariablesForNode_toFinset (children : ℕ → List ℕ) (node : ℕ) :
    (getVariablesForNode children node).toFinset =
      insert node (children node).toFinset := by
  unfold getVariablesForNode
  rw [setInsertAll_toFinset]
  ext y
  simp [setInsert]

theorem getVariablesForNode_sorted (children : ℕ → List ℕ) (node : ℕ) :
    (getVariablesForNode children node).Sorted (· < ·) :=
  setInsertAll_sorted _ _ (by simp [setInsert])

theorem buildFronts_getD (children : ℕ → List ℕ) (n v : ℕ) (hv : v < n) :
    (buildFronts children n).getD v dFront =
      { id := v
        vars := getVariablesForNode children v
        eliminated_vars := [v]
        remaining_vars := (getVariablesForNode children v).filter (fun x => x ≠ v)
        dependencies := children v
        dependents := dependentsOf children n v } := by
  unfold buildFronts
  rw [List.getD_eq_getElem?_getD, List.getElem?_map]
  simp [hv]

theorem mem_dependentsOf (children : ℕ → List ℕ) (n c v : ℕ)
    (hv : v < n) (hc : c ∈ children v) : v ∈ dependentsOf children n c := by
  unfold dependentsOf
  exact List.mem_flatMap.mpr
    ⟨v, by simp [List.mem_range, hv], List.mem_filterMap.mpr ⟨c, hc, by simp⟩⟩

theorem setInsertAll_append (s : List ℕ) (l1 l2 : List ℕ) :
    setInsertAll s (l1 ++ l2) = setInsertAll (setInsertAll s l1) l2 := by
  simp [setInsertAll, List.foldl_append]

theorem buildFronts_length (children : ℕ → List ℕ) (n : ℕ) :
    (buildFronts children n).length = n := by
  simp [buildFronts]

theorem buildFronts_getD_ge (children : ℕ → List ℕ) (n v : ℕ) (hv : n ≤ v) :
    (buildFronts children n).getD v dFront = dFront := by
  rw [List.getD_eq_getElem?_getD,
    List.getElem?_eq_none_iff.mpr (by rw [buildFronts_length]; omega)]
  rfl

theorem list_eq_of_getD {l1 l2 : List (List ℕ)} (hlen : l1.length = l2.length)
    (h : ∀ p, l1.getD p [] = l2.getD p []) : l1 = l2 := by
  apply List.ext_getElem hlen
  intro i h1 h2
  rw [← List.getD_eq_getElem l1 [] h1, ← List.getD_eq_getElem l2 [] h2]
  exact h i

theorem resizeL_nil_getD (n p : ℕ) :
    (resizeL ([] : List (List ℕ)) n []).getD p [] = [] := by
  rw [resizeL_nil, List.getD_eq_getElem?_getD]
  by_cases hp : p < n
  · simp [hp]
  · rw [List.getElem?_eq_none_iff.mpr (by simp; omega)]
    rfl

theorem replicate_nil_getD (n p : ℕ) :
    (List.replicate n ([] : List ℕ)).getD p [] = [] := by
  rw [List.getD_eq_getElem?_getD]
  by_cases hp : p < n
  · simp [hp]
  · rw [List.getElem?_eq_none_iff.mpr (by simp; omega)]
    rfl

/-- Running the elimination loop a second time over the arrays left by a
first (fresh) run: the parent array and `elimination_tree` come out
identical, but every `etree_children` list — resized, never cleared —
receives a second copy of its elements. -/
theorem etree_double_run (adj : ℕ → Finset ℕ) (n : ℕ)
    (hadj : ∀ v u, u ∈ adj v → u < n) :
    (etreeRun adj
        { visited := ∅
          parent := resizeL (etreeRun adj
            { visited := ∅
              parent := resizeL [] n (-1)
              childrenE := resizeL [] n []
              elimT := List.replicate n [] } n).parent n (-1)
          childrenE := resizeL (etreeRun adj
            { visited := ∅
              parent := resizeL [] n (-1)
              childrenE := resizeL [] n []
              elimT := List.replicate n [] } n).childrenE n []
          elimT := List.replicate n [] } n).parent =
      (etreeRun adj
        { visited := ∅
          parent := resizeL [] n (-1)
          childrenE := resizeL [] n []
          elimT := List.replicate n [] } n).parent ∧
    (etreeRun adj
        { visited := ∅
          parent := resizeL (etreeRun adj
            { visited := ∅
              parent := resizeL [] n (-1)
              childrenE := resizeL [] n []
              elimT := List.replicate n [] } n).parent n (-1)
          childrenE := resizeL (etreeRun adj
            { visited := ∅
              parent := resizeL [] n (-1)
              childrenE := resizeL [] n []
              elimT := List.replicate n [] } n).childrenE n []
          elimT := List.replicate n [] } n).elimT =
      (etreeRun adj
        { visited := ∅
          parent := resizeL [] n (-1)
          childrenE := resizeL [] n []
          elimT := List.replicate n [] } n).elimT ∧
    (∀ p, (etreeRun adj
        { visited := ∅
          parent := resizeL (etreeRun adj
            { visited := ∅
              parent := resizeL [] n (-1)
              childrenE := resizeL [] n []
              elimT := List.replicate n [] } n).parent n (-1)
          childrenE := resizeL (etreeRun adj
            { visited := ∅
              parent := resizeL [] n (-1)
              childrenE := resizeL [] n []
              elimT := List.replicate n [] } n).childrenE n []
          elimT := List.replicate n [] } n).childrenE.getD p [] =
      (etreeRun adj
        { visited := ∅
          parent := resizeL [] n (-1)
          childrenE := resizeL [] n []
          elimT := List.replicate n [] } n).childrenE.getD p [] ++
      (etreeRun adj
        { visited := ∅
          parent := resizeL [] n (-1)
          childrenE := resizeL [] n []
          elimT := List.replicate n [] } n).childrenE.getD p []) := by
  set init1 : ETreeState :=
    { visited := ∅
      parent := resizeL [] n (-1)
      childrenE := resizeL [] n []
      elimT := List.replicate n [] } with hinit1
  set run1 := etreeRun adj init1 n with hrun1
  obtain ⟨v1, p1len, c1len, e1len, u1, d1, ch1, el1⟩ :=
    etreeRun_spec adj n init1 rfl (resizeL_length _ _ _) (resizeL_length _ _ _)
      (List.length_replicate _ _) hadj n le_rfl
  rw [← hrun1] at v1 p1len c1len e1len u1 d1 ch1 el1
  set init2 : ETreeState :=
    { visited := ∅
      parent := resizeL run1.parent n (-1)
      childrenE := resizeL run1.childrenE n []
      elimT := List.replicate n [] } with hinit2
  set run2 := etreeRun adj init2 n with hrun2
  obtain ⟨v2, p2len, c2len, e2len, u2, d2, ch2, el2⟩ :=
    etreeRun_spec adj n init2 rfl (resizeL_length _ _ _) (resizeL_length _ _ _)
      (List.length_replicate _ _) hadj n le_rfl
  rw [← hrun2] at v2 p2len c2len e2len u2 d2 ch2 el2
  have hresp : resizeL run1.parent n (-1) = run1.parent := by
    have h := resizeL_self run1.parent (-1)
    rw [p1len] at h
    exact h
  have hresc : resizeL run1.childrenE n [] = run1.childrenE := by
    have h := resizeL_self run1.childrenE []
    rw [c1len] at h
    exact h
  have hinit2p : init2.parent = run1.parent := by rw [hinit2]; exact hresp
  have hinit2c : ∀ p, init2.childrenE.getD p [] = run1.childrenE.getD p [] := by
    intro p
    rw [hinit2]
    show (resizeL run1.childrenE n []).getD p [] = _
    rw [hresc]
  have hinit1p : ∀ v, v < n → init1.parent[v]? = some (-1) := by
    intro v hv
    rw [hinit1]
    show (resizeL [] n (-1))[v]? = some (-1)
    rw [resizeL_nil]
    simp [hv]
  have hch1val : ∀ p, run1.childrenE.getD p [] =
      (List.range n).filter (fun w => parentSpec adj w = some p) := by
    intro p
    rw [ch1 p, hinit1]
    show (resizeL [] n []).getD p [] ++ _ = _
    rw [resizeL_nil_getD, List.nil_append]
  refine ⟨?_, ?_, ?_⟩
  · apply List.ext_getElem?
    intro v
    by_cases hv : v < n
    · rw [d2 v hv]
      rcases hps : parentSpec adj v with _ | p
      · rw [hinit2p, d1 v hv, hps]
      · rw [d1 v hv, hps]
    · rw [u2 v (by omega), hinit2p, u1 v (by omega)]
  · apply list_eq_of_getD (by rw [e2len, e1len])
    intro p
    rw [el2 p, el1 p, hinit1, hinit2]
  · intro p
    rw [ch2 p, hinit2c p, hch1val p]

/-! ### Claims -/

/-- C1: for the 5×5 matrix `A5` and right-hand side `b5 = [1,2,3,4,5]`,
after `analyzePattern` and `factorize` succeed, the claim demands that
`solve(b5)` return `x` with `‖A·x − b‖ < 1e-10`.  The code instead
returns `x = b5` unchanged (both substitutions are no-ops), and the
squared residual of that vector is `211`, far above `(1e-10)²`: the code
contradicts the spec scenario (and the intent documented by the repo's
own reference solver `correct_sparse_solver.cpp`). -/
theorem c1_solve_returns_rhs_and_residual_is_large :
    (factorize s1A5 A5).2 = none ∧
    solve s2A5 b5 = .ok b5 ∧
    residualSq A5 b5 b5 = 211 ∧
    ¬ residualSq A5 b5 b5 < ((1 : ℚ) / 10 ^ 10) ^ 2 := by
  have hres : residualSq A5 b5 b5 = 211 := by
    norm_num [residualSq, matVec, A5, b5, Finset.sum_range_succ, List.getD]
  refine ⟨rfl, rfl, hres, ?_⟩
  rw [hres]
  norm_num

/-- C2: in the factorized state, for every right-hand side of matching
length, `solve` returns the right-hand side itself: `forwardSubstitution`
and `backwardSubstitution` leave the vector unmodified, so `solve` is the
identity on its input. -/
theorem c2_solve_is_identity (s : SolverState) (rhs : List ℚ)
    (hf : s.factorization_done = true) (hl : rhs.length = s.rows) :
    solve s rhs = .ok rhs := by
  simp [solve, forwardSubstitution, backwardSubstitution, hf, hl]

/-- Witness for C2 at the factorized state for `A5` and `rhs = b5`. -/
theorem c2_solve_is_identity_witness :
    s2A5.factorization_done = true ∧ b5.length = s2A5.rows ∧
      solve s2A5 b5 = .ok b5 :=
  ⟨rfl, rfl, c2_solve_is_identity s2A5 b5 rfl rfl⟩

/-- C3 counterexample: on the 2×2 matrix `[[0,1],[1,0]]` the pivot
`D(0)` of the second front is exactly `0`, far below the threshold
`1e-12` named by the claim, yet `factorize` completes with no error and
sets `factorization_done`: `factorizeFrontalMatrix` contains no pivot
magnitude check at all. -/
theorem c3_zero_pivot_not_detected :
    |((factorize s1B2 B2).1.2.getD 1 dFrontNum).D 0| < (1 : ℚ) / 10 ^ 12 ∧
    (factorize s1B2 B2).2 = none ∧
    (factorize s1B2 B2).1.1.factorization_done = true := by
  have hfronts : s1B2.fronts =
      [⟨0, [0], [0], [], [], [1]⟩, ⟨1, [0, 1], [1], [0], [0], []⟩] := by
    decide
  have hD : ((factorize s1B2 B2).1.2.getD 1 dFrontNum).D 0 = 0 := by
    have hmap : (factorize s1B2 B2).1.2 = s1B2.fronts.map (processFront B2) := rfl
    rw [hmap, hfronts]
    have h00 : fillF [0, 1] B2.entries 0 0 = 0 := by decide
    show (ldlFactor (addChildContributions (fillF [0, 1] B2.entries)) 2).2 0 = 0
    simp only [ldlFactor, addChildContributions, show List.range 2 = [0, 1] from rfl,
      List.foldl_cons, List.foldl_nil, ldlStep]
    norm_num [Finset.sum_range_succ, h00]
  refine ⟨?_, rfl, rfl⟩
  rw [hD]
  norm_num

/-- C3 amended: once the state and shape checks pass, `factorize` always
completes and sets `factorization_done`, whatever the pivots are; no
`SingularPivotError` (or any numeric error) exists in the code. -/
theorem c3_amended_factorize_never_fails_numerically
    (s : SolverState) (m : Mat)
    (h1 : s.pattern_analyzed = true) (h2 : m.rows = s.rows) (h3 : m.cols = s.cols) :
    (factorize s m).2 = none ∧ (factorize s m).1.1.factorization_done = true := by
  simp [factorize, h1, h2, h3]

/-- Witness for the amended C3 at the analyzed state for `B2`. -/
theorem c3_amended_factorize_never_fails_numerically_witness :
    s1B2.pattern_analyzed = true ∧ B2.rows = s1B2.rows ∧ B2.cols = s1B2.cols ∧
      ((factorize s1B2 B2).2 = none ∧ (factorize s1B2 B2).1.1.factorization_done = true) :=
  ⟨rfl, rfl, rfl, c3_amended_factorize_never_fails_numerically s1B2 B2 rfl rfl rfl⟩

/-- C4 counterexample: in the assembly tree of the 3×3 tridiagonal
matrix `T3`, front 2 (variables `{1,2}`) has the completed child front 1
(variables `{0,1}`, shared variable `1`).  The child's trailing
Schur-complement update for the shared variable is `−1/4 ≠ 0`, so the
claimed element-wise accumulation would make the parent's local entry at
the shared offset `4 + (−1/4) = 15/4`; the code's `addChildContributions`
adds nothing and the parent's local matrix keeps the raw entry `4`. -/
theorem c4_child_contribution_never_added :
    specSchurUpdate (processFront T3 ((analyzePattern freshSolver T3).1.fronts.getD 1 dFront))
        = -1 / 4 ∧
    (processFront T3 ((analyzePattern freshSolver T3).1.fronts.getD 2 dFront)).F 0 0 = 4 ∧
    (processFront T3 ((analyzePattern freshSolver T3).1.fronts.getD 2 dFront)).F 0 0 ≠
      fillF ((analyzePattern freshSolver T3).1.fronts.getD 2 dFront).vars T3.entries 0 0 +
        specSchurUpdate
          (processFront T3 ((analyzePattern freshSolver T3).1.fronts.getD 1 dFront)) := by
  have hf1 : (analyzePattern freshSolver T3).1.fronts.getD 1 dFront =
      ⟨1, [0, 1], [1], [0], [0], [2]⟩ := by decide
  have hf2 : (analyzePattern freshSolver T3).1.fronts.getD 2 dFront =
      ⟨2, [1, 2], [2], [1], [1], []⟩ := by decide
  have h00 : fillF [0, 1] T3.entries 0 0 = 4 := by decide
  have h10 : fillF [0, 1] T3.entries 1 0 = -1 := by decide
  have h11 : fillF [0, 1] T3.entries 1 1 = 4 := by decide
  have hP00 : fillF [1, 2] T3.entries 0 0 = 4 := by decide
  have hupd : specSchurUpdate
      (processFront T3 ((analyzePattern freshSolver T3).1.fronts.getD 1 dFront)) = -1 / 4 := by
    rw [hf1]
    show (ldlFactor (addChildContributions (fillF [0, 1] T3.entries)) 2).2 1 -
        addChildContributions (fillF [0, 1] T3.entries) 1 1 = -1 / 4
    simp only [ldlFactor, addChildContributions, show List.range 2 = [0, 1] from rfl,
      List.foldl_cons, List.foldl_nil, ldlStep]
    norm_num [Finset.sum_range_succ, h00, h10, h11]
  have hpar : (processFront T3 ((analyzePattern freshSolver T3).1.fronts.getD 2 dFront)).F 0 0
      = 4 := by
    rw [hf2]
    show addChildContributions (fillF [1, 2] T3.entries) 0 0 = 4
    simpa [addChildContributions] using hP00
  refine ⟨hupd, hpar, ?_⟩
  rw [hupd, hpar, hf2]
  show (4 : ℚ) ≠ fillF [1, 2] T3.entries 0 0 + (-1 / 4)
  rw [hP00]
  norm_num

/-- C4 amended: `addChildContributions` adds nothing (its loop body is
empty), so for every matrix and every front the local frontal matrix
after the child-contribution step is exactly the restriction of the
original matrix to the front's variables, entry for entry. -/
theorem c4_amended_front_matrix_is_plain_restriction
    (m : Mat) (f : Front) (i j : ℕ) :
    (processFront m f).F i j = fillF f.vars m.entries i j :=
  rfl

/-- C7 counterexample: after a successful `factorize(A5)`, a failing
`factorize(B2)` (dimension mismatch) raises its error but leaves
`factorization_done` set, and the subsequent `solve` succeeds instead of
failing with `NotFactorizedError` as the claim demands. -/
theorem c7_failed_factorize_leaves_factorized_state :
    s2A5.factorization_done = true ∧
    (factorize s2A5 B2).2 = some .DimensionMismatchError ∧
    solve (factorize s2A5 B2).1.1 b5 = .ok b5 :=
  ⟨rfl, rfl, rfl⟩

/-- C7 amended: a failing `factorize` performs its checks before any
numeric work and returns with the solver state unchanged.  Hence if no
factorize had yet succeeded, `solve` still fails with
`NotFactorizedError`; but after an earlier success the solver remains
factorized and `solve` proceeds normally. -/
theorem c7_amended_failed_factorize_state_unchanged
    (s : SolverState) (m : Mat) (rhs : List ℚ)
    (he : (factorize s m).2.isSome) :
    (factorize s m).1.1 = s ∧
    (s.factorization_done = false →
      solve (factorize s m).1.1 rhs = .error .NotFactorizedError) ∧
    (s.factorization_done = true → rhs.length = s.rows →
      solve (factorize s m).1.1 rhs = .ok rhs) := by
  have hs : (factorize s m).1.1 = s := by
    unfold factorize at he ⊢
    by_cases h1 : s.pattern_analyzed
    · by_cases h2 : m.rows ≠ s.rows ∨ m.cols ≠ s.cols
      · simp [h1, h2]
      · simp [h1, h2] at he
    · simp [h1]
  refine ⟨hs, ?_, ?_⟩
  · intro hd
    rw [hs]
    simp [solve, hd]
  · intro hd hl
    rw [hs]
    simp [solve, forwardSubstitution, backwardSubstitution, hd, hl]

/-- Witness for the amended C7: the failing `factorize(B2)` after a
successful `factorize(A5)`. -/
theorem c7_amended_failed_factorize_state_unchanged_witness :
    (factorize s2A5 B2).2.isSome = true ∧
    ((factorize s2A5 B2).1.1 = s2A5 ∧
     (s2A5.factorization_done = false →
       solve (factorize s2A5 B2).1.1 b5 = .error .NotFactorizedError) ∧
     (s2A5.factorization_done = true → b5.length = s2A5.rows →
       solve (factorize s2A5 B2).1.1 b5 = .ok b5)) :=
  ⟨rfl, c7_amended_failed_factorize_state_unchanged s2A5 B2 b5 rfl⟩

/-- C10: the entry-point state and shape checks fail fast and
synchronously, before any numeric work: `factorize` returns
`PatternNotAnalyzedError` (state untouched, no fronts processed) whenever
the pattern has not been analyzed; `solve` returns `NotFactorizedError`
whenever no factorize has succeeded, `DimensionMismatchError` whenever
the right-hand side length differs from `n`, and otherwise a solution
vector of length `n`. -/
theorem c10_entry_point_checks :
    (∀ (s : SolverState) (m : Mat), s.pattern_analyzed = false →
      factorize s m = ((s, []), some .PatternNotAnalyzedError)) ∧
    (∀ (s : SolverState) (rhs : List ℚ), s.factorization_done = false →
      solve s rhs = .error .NotFactorizedError) ∧
    (∀ (s : SolverState) (rhs : List ℚ), s.factorization_done = true →
      rhs.length ≠ s.rows → solve s rhs = .error .DimensionMismatchError) ∧
    (∀ (s : SolverState) (rhs : List ℚ), s.factorization_done = true →
      rhs.length = s.rows → ∃ x, solve s rhs = .ok x ∧ x.length = s.rows) := by
  refine ⟨?_, ?_, ?_, ?_⟩
  · intro s m h
    simp [factorize, h]
  · intro s rhs h
    simp [solve, h]
  · intro s rhs h hl
    simp [solve, h, hl]
  · intro s rhs h hl
    refine ⟨rhs, ?_, hl⟩
    simp [solve, forwardSubstitution, backwardSubstitution, h, hl]

/-- Witness for C10 at concrete states: a fresh solver and the
factorized state for `A5`. -/
theorem c10_entry_point_checks_witness :
    factorize freshSolver A5 = ((freshSolver, []), some .PatternNotAnalyzedError) ∧
    solve freshSolver b5 = .error .NotFactorizedError ∧
    solve s2A5 [1] = .error .DimensionMismatchError ∧
    ∃ x, solve s2A5 b5 = .ok x ∧ x.length = s2A5.rows :=
  ⟨c10_entry_point_checks.1 freshSolver A5 rfl,
   c10_entry_point_checks.2.1 freshSolver b5 rfl,
   c10_entry_point_checks.2.2.1 s2A5 [1] rfl (by decide),
   c10_entry_point_checks.2.2.2 s2A5 b5 rfl rfl⟩

/-! ### C5: the scheduler race -/

/-- Dependency map of a single front with no dependencies
(a 1×1 pattern). -/
def schedDeps1 : ℕ → List ℕ :=
  fun _ => []

/-- Trace state: worker 0 has claimed front 0. -/
def schedS1 : SchedState :=
  { schedInit with
      workers := fun w' => if w' = 0 then .holding 0 else schedInit.workers w' }

/-- Trace state: workers 0 and 1 have BOTH claimed front 0 (the claim
scan writes nothing, so the front stays unprocessed between the two
claims). -/
def schedS2 : SchedState :=
  { schedS1 with
      workers := fun w' => if w' = 1 then .holding 0 else schedS1.workers w' }

/-- Trace state: worker 0 has finished front 0. -/
def schedS3 : SchedState :=
  { processedS := insert 0 schedS2.processedS
    workers := fun w' => if w' = 0 then .idle else schedS2.workers w'
    pcount := fun j => if j = 0 then schedS2.pcount j + 1 else schedS2.pcount j }

/-- Trace state: worker 1 has finished front 0 a second time. -/
def schedS4 : SchedState :=
  { processedS := insert 0 schedS3.processedS
    workers := fun w' => if w' = 1 then .idle else schedS3.workers w'
    pcount := fun j => if j = 0 then schedS3.pcount j + 1 else schedS3.pcount j }

/-- C5 counterexample: an interleaving of two workers in which both claim
front 0 (state `schedS2`: two workers simultaneously hold the same
front) and the front is subsequently processed twice (`pcount 0 = 2` in
the reachable state `schedS4`).  The selection in the critical section
does not mark the chosen front, so the claimed mutual exclusion of
front ownership does not hold. -/
theorem c5_front_claimed_twice :
    SchedReach schedDeps1 1 schedS2 ∧
    schedS2.workers 0 = .holding 0 ∧ schedS2.workers 1 = .holding 0 ∧
    SchedReach schedDeps1 1 schedS4 ∧ schedS4.pcount 0 = 2 := by
  have hready0 : firstReady schedDeps1 1 schedInit 0 :=
    ⟨⟨Nat.zero_lt_one, by simp [schedInit], by simp [schedDeps1]⟩,
     fun j hj => absurd hj (Nat.not_lt_zero j)⟩
  have hready1 : firstReady schedDeps1 1 schedS1 0 :=
    ⟨⟨Nat.zero_lt_one, by simp [schedS1, schedInit], by simp [schedDeps1]⟩,
     fun j hj => absurd hj (Nat.not_lt_zero j)⟩
  have step1 : SchedStep schedDeps1 1 schedInit schedS1 :=
    SchedStep.claimStep schedInit 0 0 rfl hready0
  have step2 : SchedStep schedDeps1 1 schedS1 schedS2 :=
    SchedStep.claimStep schedS1 1 0 rfl hready1
  have step3 : SchedStep schedDeps1 1 schedS2 schedS3 :=
    SchedStep.finishStep schedS2 0 0 rfl
  have step4 : SchedStep schedDeps1 1 schedS3 schedS4 :=
    SchedStep.finishStep schedS3 1 0 rfl
  have reach2 : SchedReach schedDeps1 1 schedS2 :=
    Relation.ReflTransGen.tail (Relation.ReflTransGen.single step1) step2
  exact ⟨reach2, rfl, rfl,
    Relation.ReflTransGen.tail (Relation.ReflTransGen.tail reach2 step3) step4, rfl⟩

/-- C5 amended: what the critical section does guarantee.  A worker only
ever holds a front that exists and all of whose in-range dependencies
are already marked processed (the scan checks this under the lock, and
processed flags are monotone).  The exactly-once part of the claim is
false: claiming a front does not mark it, so two workers can hold and
process the same front (see the counterexample). -/
theorem c5_amended_held_front_has_processed_deps
    (deps : ℕ → List ℕ) (n : ℕ) (st : SchedState)
    (h : SchedReach deps n st) :
    ∀ w i, st.workers w = .holding i →
      i < n ∧ ∀ d ∈ deps i, d < n → d ∈ st.processedS := by
  induction h with
  | refl =>
      intro w i hw
      simp [schedInit] at hw
  | tail hab hstep ih =>
      cases hstep with
      | claimStep w i hidle hfr =>
          intro w' i' hw'
          by_cases hww : w' = w
          · subst hww
            simp only [if_pos rfl] at hw'
            cases hw'
            exact ⟨hfr.1.1, hfr.1.2.2⟩
          · simp only [if_neg hww] at hw'
            exact ih w' i' hw'
      | finishStep w i hold =>
          intro w' i' hw'
          by_cases hww : w' = w
          · subst hww
            simp at hw'
          · simp only [if_neg hww] at hw'
            obtain ⟨hi, hdeps⟩ := ih w' i' hw'
            exact ⟨hi, fun d hd hdn => Finset.mem_insert_of_mem (hdeps d hd hdn)⟩

/-- Dependency map of a two-front chain: front 1 depends on front 0. -/
def schedDeps2 : ℕ → List ℕ :=
  fun i => if i = 1 then [0] else []

/-- Witness trace state: worker 0 has claimed front 0 of the chain. -/
def schedT1 : SchedState :=
  { schedInit with
      workers := fun w' => if w' = 0 then .holding 0 else schedInit.workers w' }

/-- Witness trace state: worker 0 has finished front 0. -/
def schedT2 : SchedState :=
  { processedS := insert 0 schedT1.processedS
    workers := fun w' => if w' = 0 then .idle else schedT1.workers w'
    pcount := fun j => if j = 0 then schedT1.pcount j + 1 else schedT1.pcount j }

/-- Witness trace state: worker 0 has claimed front 1 (its dependency 0
being processed). -/
def schedT3 : SchedState :=
  { schedT2 with
      workers := fun w' => if w' = 0 then .holding 1 else schedT2.workers w' }

/-- Witness for the amended C5: in the reachable state `schedT3` worker 0
holds front 1, and the invariant yields that front 1 exists and its
dependency 0 is processed. -/
theorem c5_amended_held_front_has_processed_deps_witness :
    SchedReach schedDeps2 2 schedT3 ∧
    schedT3.workers 0 = .holding 1 ∧
    (1 < 2 ∧ ∀ d ∈ schedDeps2 1, d < 2 → d ∈ schedT3.processedS) := by
  have hready0 : firstReady schedDeps2 2 schedInit 0 :=
    ⟨⟨Nat.zero_lt_two, by simp [schedInit], by simp [schedDeps2]⟩,
     fun j hj => absurd hj (Nat.not_lt_zero j)⟩
  have hready1 : firstReady schedDeps2 2 schedT2 1 := by
    refine ⟨⟨Nat.one_lt_two, ?_, ?_⟩, ?_⟩
    · simp [schedT2, schedT1, schedInit]
    · intro d hd hdn
      simp [schedDeps2] at hd
      subst hd
      simp [schedT2, schedT1, schedInit]
    · intro j hj hready
      interval_cases j
      exact hready.2.1 (by simp [schedT2, schedT1, schedInit])
  have step1 : SchedStep schedDeps2 2 schedInit schedT1 :=
    SchedStep.claimStep schedInit 0 0 rfl hready0
  have step2 : SchedStep schedDeps2 2 schedT1 schedT2 :=
    SchedStep.finishStep schedT1 0 0 rfl
  have step3 : SchedStep schedDeps2 2 schedT2 schedT3 :=
    SchedStep.claimStep schedT2 0 1 rfl hready1
  have reach : SchedReach schedDeps2 2 schedT3 :=
    Relation.ReflTransGen.tail
      (Relation.ReflTransGen.tail (Relation.ReflTransGen.single step1) step2) step3
  exact ⟨reach, rfl,
    c5_amended_held_front_has_processed_deps schedDeps2 2 schedT3 reach 0 1 rfl⟩

/-! ### C8: the elimination forest -/

/-- C8: for every well-formed square matrix with `n > 0`, `analyzePattern`
succeeds and produces a parent array with exactly `n` entries in which
every assigned parent of `v` is the maximum-index neighbour of `v` among
those not yet visited when `v` was processed in ascending order (i.e.
the neighbours with index above `v`, since visited = {0,…,v} at that
moment), every unassigned `v` has no such neighbour, every assigned
parent satisfies `parent[v] > v`, and the parent relation is acyclic. -/
theorem c8_elimination_forest (m : Mat) (hwf : m.WellFormed)
    (hsq : m.rows = m.cols) (hpos : 0 < m.rows) :
    (analyzePattern freshSolver m).2 = none ∧
    (analyzePattern freshSolver m).1.etree_parent.length = m.rows ∧
    (∀ v p : ℕ,
      (analyzePattern freshSolver m).1.etree_parent.getD v (-1) = (p : Int) →
        p ∈ buildAdjacency m.entries v ∧ v < p ∧
          ∀ u ∈ buildAdjacency m.entries v, v < u → u ≤ p) ∧
    (∀ v, v < m.rows →
      (analyzePattern freshSolver m).1.etree_parent.getD v (-1) = -1 →
        ∀ u ∈ buildAdjacency m.entries v, u ≤ v) ∧
    (∀ v, ¬ Relation.TransGen
      (fun a b : ℕ =>
        (analyzePattern freshSolver m).1.etree_parent.getD a (-1) = (b : Int)) v v) := by
  have hadj : ∀ v u, u ∈ buildAdjacency m.entries v → u < m.rows :=
    buildAdjacency_lt m.entries m.rows
      (fun e he => ⟨(hwf e he).1, hsq ▸ (hwf e he).2⟩)
  have hred := analyzePattern_ok freshSolver m (by omega) hsq
  have hpar : (analyzePattern freshSolver m).1.etree_parent =
      (etreeRun (buildAdjacency m.entries)
        { visited := ∅
          parent := resizeL [] m.rows (-1)
          childrenE := resizeL [] m.rows []
          elimT := List.replicate m.rows [] } m.rows).parent := by
    rw [hred]
    rfl
  obtain ⟨_, hplen, _, _, _, hdone, _, _⟩ :=
    etreeRun_spec (buildAdjacency m.entries) m.rows
      { visited := ∅
        parent := resizeL [] m.rows (-1)
        childrenE := resizeL [] m.rows []
        elimT := List.replicate m.rows [] }
      rfl (resizeL_length _ _ _) (resizeL_length _ _ _) (List.length_replicate _ _)
      hadj m.rows le_rfl
  have hinitp : ∀ v, v < m.rows → (resizeL ([] : List Int) m.rows (-1))[v]? = some (-1) := by
    intro v hv
    rw [resizeL_nil]
    simp [hv]
  have hassigned : ∀ v p : ℕ,
      (analyzePattern freshSolver m).1.etree_parent.getD v (-1) = (p : Int) →
        parentSpec (buildAdjacency m.entries) v = some p := by
    intro v p hvp
    rw [hpar, List.getD_eq_getElem?_getD] at hvp
    by_cases hv : v < m.rows
    · rw [hdone v hv] at hvp
      rcases hps : parentSpec (buildAdjacency m.entries) v with _ | p0
      · rw [hps] at hvp
        simp only [hinitp v hv, Option.getD_some] at hvp
        exfalso
        omega
      · rw [hps] at hvp
        simp only [Option.getD_some] at hvp
        have : p0 = p := by
          rw [Int.ofNat_eq_natCast] at hvp
          exact_mod_cast hvp
        subst this
        rfl
    · have hnone : (etreeRun (buildAdjacency m.entries) _ m.rows).parent[v]? = none :=
        List.getElem?_eq_none_iff.mpr (by rw [hplen]; omega)
      rw [hnone] at hvp
      simp only [Option.getD_none] at hvp
      exfalso
      omega
  have hclause3 : ∀ v p : ℕ,
      (analyzePattern freshSolver m).1.etree_parent.getD v (-1) = (p : Int) →
        p ∈ buildAdjacency m.entries v ∧ v < p ∧
          ∀ u ∈ buildAdjacency m.entries v, v < u → u ≤ p := by
    intro v p hvp
    have hps := hassigned v p hvp
    exact ⟨(parentSpec_mem hps).1, (parentSpec_mem hps).2, parentSpec_is_max hps⟩
  refine ⟨by rw [hred], by rw [hpar]; exact hplen, hclause3, ?_, ?_⟩
  · intro v hv hroot
    rcases hps : parentSpec (buildAdjacency m.entries) v with _ | p0
    · exact parentSpec_none hps
    · exfalso
      rw [hpar, List.getD_eq_getElem?_getD, hdone v hv, hps] at hroot
      simp only [Option.getD_some] at hroot
      have h0 : (0 : Int) ≤ Int.ofNat p0 := Int.ofNat_nonneg p0
      rw [hroot] at h0
      norm_num at h0
  · intro v h
    have h2 : Relation.TransGen (fun a b : ℕ => a < b) v v :=
      Relation.TransGen.mono (fun a b hab => (hclause3 a b hab).2.1) h
    have htr : Transitive (fun a b : ℕ => a < b) :=
      fun a b c hab hbc => Nat.lt_trans hab hbc
    rw [Relation.transGen_eq_self htr] at h2
    exact lt_irrefl v h2

/-- Witness for C8 at the matrix `A5`: the hypotheses hold, and the
parent of variable 0 is its maximum higher-index neighbour, 1. -/
theorem c8_elimination_forest_witness :
    A5.WellFormed ∧ A5.rows = A5.cols ∧ 0 < A5.rows ∧
    (analyzePattern freshSolver A5).2 = none ∧
    (analyzePattern freshSolver A5).1.etree_parent.getD 0 (-1) = (1 : Int) ∧
    (1 ∈ buildAdjacency A5.entries 0 ∧ 0 < 1 ∧
      ∀ u ∈ buildAdjacency A5.entries 0, 0 < u → u ≤ 1) :=
  ⟨by decide, rfl, by decide,
   (c8_elimination_forest A5 (by decide) rfl (by decide)).1,
   by decide,
   (c8_elimination_forest A5 (by decide) rfl (by decide)).2.2.1 0 1 (by decide)⟩

/-! ### C9: the structure of the fronts -/

/-- C9: after a single `analyzePattern` call on a fresh solver, for every
node `v` the front with id `v` satisfies: its variable set is
`{v} ∪ children(v)`, its eliminated list is exactly `[v]`, its remaining
list is `variables \ {v}` (as a set, with `v` itself excluded), its
dependency list is exactly `children(v)`, and `v` appears in the
dependents of each of its children. -/
theorem c9_front_structure (m : Mat) (hwf : m.WellFormed)
    (hsq : m.rows = m.cols) (hpos : 0 < m.rows) (v : ℕ) (hv : v < m.rows) :
    ((analyzePattern freshSolver m).1.fronts.getD v dFront).id = v ∧
    ((analyzePattern freshSolver m).1.fronts.getD v dFront).vars.toFinset =
      insert v ((analyzePattern freshSolver m).1.etree_children.getD v []).toFinset ∧
    ((analyzePattern freshSolver m).1.fronts.getD v dFront).eliminated_vars = [v] ∧
    ((analyzePattern freshSolver m).1.fronts.getD v dFront).remaining_vars.toFinset =
      ((analyzePattern freshSolver m).1.fronts.getD v dFront).vars.toFinset \ {v} ∧
    v ∉ ((analyzePattern freshSolver m).1.fronts.getD v dFront).remaining_vars ∧
    ((analyzePattern freshSolver m).1.fronts.getD v dFront).dependencies =
      (analyzePattern freshSolver m).1.etree_children.getD v [] ∧
    (∀ c ∈ (analyzePattern freshSolver m).1.etree_children.getD v [],
      v ∈ ((analyzePattern freshSolver m).1.fronts.getD c dFront).dependents) := by
  have hadj : ∀ w u, u ∈ buildAdjacency m.entries w → u < m.rows :=
    buildAdjacency_lt m.entries m.rows
      (fun e he => ⟨(hwf e he).1, hsq ▸ (hwf e he).2⟩)
  have hred := analyzePattern_ok freshSolver m (by omega) hsq
  have hfronts : (analyzePattern freshSolver m).1.fronts =
      buildFronts
        (fun i =>
          (etreeRun (buildAdjacency m.entries)
            { visited := ∅
              parent := resizeL [] m.rows (-1)
              childrenE := resizeL [] m.rows []
              elimT := List.replicate m.rows [] } m.rows).childrenE.getD i [])
        m.rows := by
    rw [hred]
    rfl
  have hchild : (analyzePattern freshSolver m).1.etree_children =
      (etreeRun (buildAdjacency m.entries)
        { visited := ∅
          parent := resizeL [] m.rows (-1)
          childrenE := resizeL [] m.rows []
          elimT := List.replicate m.rows [] } m.rows).childrenE := by
    rw [hred]
    rfl
  obtain ⟨_, _, hclen, _, _, _, hch, _⟩ :=
    etreeRun_spec (buildAdjacency m.entries) m.rows
      { visited := ∅
        parent := resizeL [] m.rows (-1)
        childrenE := resizeL [] m.rows []
        elimT := List.replicate m.rows [] }
      rfl (resizeL_length _ _ _) (resizeL_length _ _ _) (List.length_replicate _ _)
      hadj m.rows le_rfl
  have hinitc : ∀ p, (resizeL ([] : List (List ℕ)) m.rows []).getD p [] = [] := by
    intro p
    rw [resizeL_nil, List.getD_eq_getElem?_getD]
    by_cases hp : p < m.rows
    · simp [hp]
    · rw [List.getElem?_eq_none_iff.mpr (by simp; omega)]
      rfl
  have hchval : ∀ p,
      (etreeRun (buildAdjacency m.entries)
        { visited := ∅
          parent := resizeL [] m.rows (-1)
          childrenE := resizeL [] m.rows []
          elimT := List.replicate m.rows [] } m.rows).childrenE.getD p [] =
      (List.range m.rows).filter
        (fun w => parentSpec (buildAdjacency m.entries) w = some p) := by
    intro p
    rw [hch p, hinitc p, List.nil_append]
  have hget := buildFronts_getD
    (fun i =>
      (etreeRun (buildAdjacency m.entries)
        { visited := ∅
          parent := resizeL [] m.rows (-1)
          childrenE := resizeL [] m.rows []
          elimT := List.replicate m.rows [] } m.rows).childrenE.getD i [])
    m.rows v hv
  rw [hfronts, hchild, hget]
  dsimp only
  refine ⟨rfl, ?_, rfl, ?_, ?_, rfl, ?_⟩
  · exact getVariablesForNode_toFinset _ v
  · ext y
    simp [List.mem_filter]
  · simp [List.mem_filter]
  · intro c hc
    have hcn : c < m.rows := by
      rw [hchval v] at hc
      have := List.mem_filter.mp hc
      simpa [List.mem_range] using this.1
    rw [buildFronts_getD _ m.rows c hcn]
    exact mem_dependentsOf _ m.rows c v hv hc

/-- Witness for C9 at the matrix `A5` and node `v = 1` (whose front has
variables `{0,1}`, eliminates `1`, keeps `0`, and depends on front 0). -/
theorem c9_front_structure_witness :
    A5.WellFormed ∧ A5.rows = A5.cols ∧ 0 < A5.rows ∧ 1 < A5.rows ∧
    (((analyzePattern freshSolver A5).1.fronts.getD 1 dFront).id = 1 ∧
     ((analyzePattern freshSolver A5).1.fronts.getD 1 dFront).vars.toFinset =
       insert 1 ((analyzePattern freshSolver A5).1.etree_children.getD 1 []).toFinset ∧
     ((analyzePattern freshSolver A5).1.fronts.getD 1 dFront).eliminated_vars = [1] ∧
     ((analyzePattern freshSolver A5).1.fronts.getD 1 dFront).remaining_vars.toFinset =
       ((analyzePattern freshSolver A5).1.fronts.getD 1 dFront).vars.toFinset \ {1} ∧
     1 ∉ ((analyzePattern freshSolver A5).1.fronts.getD 1 dFront).remaining_vars ∧
     ((analyzePattern freshSolver A5).1.fronts.getD 1 dFront).dependencies =
       (analyzePattern freshSolver A5).1.etree_children.getD 1 [] ∧
     (∀ c ∈ (analyzePattern freshSolver A5).1.etree_children.getD 1 [],
       1 ∈ ((analyzePattern freshSolver A5).1.fronts.getD c dFront).dependents)) :=
  ⟨by decide, rfl, by decide, by decide,
   c9_front_structure A5 (by decide) rfl (by decide) 1 (by decide)⟩

/-! ### C6: idempotence of analyzePattern -/

/-- C6 counterexample: on the 2×2 matrix `M2`, a second `analyzePattern`
call does NOT reproduce the front set of the first: `etree_children` is
resized but never cleared, so node 1's child list becomes `[0,0]` and
front 1's dependencies and front 0's dependents are likewise doubled. -/
theorem c6_second_analyze_differs :
    (analyzePattern (analyzePattern freshSolver M2).1 M2).1.fronts ≠
      (analyzePattern freshSolver M2).1.fronts ∧
    (analyzePattern (analyzePattern freshSolver M2).1 M2).1.etree_children ≠
      (analyzePattern freshSolver M2).1.etree_children ∧
    (analyzePattern (analyzePattern freshSolver M2).1 M2).1.etree_children = [[], [0, 0]] ∧
    (analyzePattern freshSolver M2).1.etree_children = [[], [0]] ∧
    ((analyzePattern (analyzePattern freshSolver M2).1 M2).1.fronts.getD 1 dFront).dependencies
      = [0, 0] ∧
    ((analyzePattern (analyzePattern freshSolver M2).1 M2).1.fronts.getD 0 dFront).dependents
      = [1, 1] := by
  decide

/-- C6 amended: calling `analyzePattern` twice with the same pattern
reproduces the parent array, the `elimination_tree` lists (cleared on
every call) and each front's variable set, eliminated and remaining
lists identically; but `etree_children` is resized without being
cleared, so each node's child list — and therefore each front's
dependency list — contains every entry of the single-call result twice. -/
theorem c6_amended_second_analyze (m : Mat) (hwf : m.WellFormed)
    (hsq : m.rows = m.cols) (hpos : 0 < m.rows) :
    (analyzePattern (analyzePattern freshSolver m).1 m).1.etree_parent =
      (analyzePattern freshSolver m).1.etree_parent ∧
    (analyzePattern (analyzePattern freshSolver m).1 m).1.elimination_tree =
      (analyzePattern freshSolver m).1.elimination_tree ∧
    (∀ p, (analyzePattern (analyzePattern freshSolver m).1 m).1.etree_children.getD p [] =
      (analyzePattern freshSolver m).1.etree_children.getD p [] ++
        (analyzePattern freshSolver m).1.etree_children.getD p []) ∧
    (∀ v, ((analyzePattern (analyzePattern freshSolver m).1 m).1.fronts.getD v dFront).vars =
      ((analyzePattern freshSolver m).1.fronts.getD v dFront).vars) ∧
    (∀ v,
      ((analyzePattern (analyzePattern freshSolver m).1 m).1.fronts.getD v dFront).eliminated_vars
        = ((analyzePattern freshSolver m).1.fronts.getD v dFront).eliminated_vars) ∧
    (∀ v,
      ((analyzePattern (analyzePattern freshSolver m).1 m).1.fronts.getD v dFront).remaining_vars
        = ((analyzePattern freshSolver m).1.fronts.getD v dFront).remaining_vars) ∧
    (∀ v,
      ((analyzePattern (analyzePattern freshSolver m).1 m).1.fronts.getD v dFront).dependencies
        = ((analyzePattern freshSolver m).1.fronts.getD v dFront).dependencies ++
          ((analyzePattern freshSolver m).1.fronts.getD v dFront).dependencies) := by
  have hadj : ∀ v u, u ∈ buildAdjacency m.entries v → u < m.rows :=
    buildAdjacency_lt m.entries m.rows
      (fun e he => ⟨(hwf e he).1, hsq ▸ (hwf e he).2⟩)
  have hred1 := analyzePattern_ok freshSolver m (by omega) hsq
  have hred2 := analyzePattern_ok (analyzePattern freshSolver m).1 m (by omega) hsq
  obtain ⟨hdp, hde, hdc⟩ := etree_double_run (buildAdjacency m.entries) m.rows hadj
  have hs1p : (analyzePattern freshSolver m).1.etree_parent = (etreeRun (buildAdjacency m.entries)
        { visited := ∅
          parent := resizeL [] m.rows (-1)
          childrenE := resizeL [] m.rows []
          elimT := List.replicate m.rows [] } m.rows).parent := by
    rw [hred1]
    rfl
  have hs1c : (analyzePattern freshSolver m).1.etree_children = (etreeRun (buildAdjacency m.entries)
        { visited := ∅
          parent := resizeL [] m.rows (-1)
          childrenE := resizeL [] m.rows []
          elimT := List.replicate m.rows [] } m.rows).childrenE := by
    rw [hred1]
    rfl
  have hs1e : (analyzePattern freshSolver m).1.elimination_tree = (etreeRun (buildAdjacency m.entries)
        { visited := ∅
          parent := resizeL [] m.rows (-1)
          childrenE := resizeL [] m.rows []
          elimT := List.replicate m.rows [] } m.rows).elimT := by
    rw [hred1]
    rfl
  have hs1f : (analyzePattern freshSolver m).1.fronts =
      buildFronts (fun i => (etreeRun (buildAdjacency m.entries)
        { visited := ∅
          parent := resizeL [] m.rows (-1)
          childrenE := resizeL [] m.rows []
          elimT := List.replicate m.rows [] } m.rows).childrenE.getD i []) m.rows := by
    rw [hred1]
    rfl
  have hs2p : (analyzePattern (analyzePattern freshSolver m).1 m).1.etree_parent =
      (etreeRun (buildAdjacency m.entries)
        { visited := ∅
          parent := resizeL (etreeRun (buildAdjacency m.entries)
        { visited := ∅
          parent := resizeL [] m.rows (-1)
          childrenE := resizeL [] m.rows []
          elimT := List.replicate m.rows [] } m.rows).parent m.rows (-1)
          childrenE := resizeL (etreeRun (buildAdjacency m.entries)
        { visited := ∅
          parent := resizeL [] m.rows (-1)
          childrenE := resizeL [] m.rows []
          elimT := List.replicate m.rows [] } m.rows).childrenE m.rows []
          elimT := List.replicate m.rows [] } m.rows).parent := by
    rw [hred2]
    show (buildEtree (buildAdjacency m.entries) m.rows
        (analyzePattern freshSolver m).1.etree_parent
        (analyzePattern freshSolver m).1.etree_children).parent = _
    rw [hs1p, hs1c]
    rfl
  have hs2e : (analyzePattern (analyzePattern freshSolver m).1 m).1.elimination_tree =
      (etreeRun (buildAdjacency m.entries)
        { visited := ∅
          parent := resizeL (etreeRun (buildAdjacency m.entries)
        { visited := ∅
          parent := resizeL [] m.rows (-1)
          childrenE := resizeL [] m.rows []
          elimT := List.replicate m.rows [] } m.rows).parent m.rows (-1)
          childrenE := resizeL (etreeRun (buildAdjacency m.entries)
        { visited := ∅
          parent := resizeL [] m.rows (-1)
          childrenE := resizeL [] m.rows []
          elimT := List.replicate m.rows [] } m.rows).childrenE m.rows []
          elimT := List.replicate m.rows [] } m.rows).elimT := by
    rw [hred2]
    show (buildEtree (buildAdjacency m.entries) m.rows
        (analyzePattern freshSolver m).1.etree_parent
        (analyzePattern freshSolver m).1.etree_children).elimT = _
    rw [hs1p, hs1c]
    rfl
  have hs2c : (analyzePattern (analyzePattern freshSolver m).1 m).1.etree_children =
      (etreeRun (buildAdjacency m.entries)
        { visited := ∅
          parent := resizeL (etreeRun (buildAdjacency m.entries)
        { visited := ∅
          parent := resizeL [] m.rows (-1)
          childrenE := resizeL [] m.rows []
          elimT := List.replicate m.rows [] } m.rows).parent m.rows (-1)
          childrenE := resizeL (etreeRun (buildAdjacency m.entries)
        { visited := ∅
          parent := resizeL [] m.rows (-1)
          childrenE := resizeL [] m.rows []
          elimT := List.replicate m.rows [] } m.rows).childrenE m.rows []
          elimT := List.replicate m.rows [] } m.rows).childrenE := by
    rw [hred2]
    show (buildEtree (buildAdjacency m.entries) m.rows
        (analyzePattern freshSolver m).1.etree_parent
        (analyzePattern freshSolver m).1.etree_children).childrenE = _
    rw [hs1p, hs1c]
    rfl
  have hs2f : (analyzePattern (analyzePattern freshSolver m).1 m).1.fronts =
      buildFronts (fun i => (etreeRun (buildAdjacency m.entries)
        { visited := ∅
          parent := resizeL (etreeRun (buildAdjacency m.entries)
        { visited := ∅
          parent := resizeL [] m.rows (-1)
          childrenE := resizeL [] m.rows []
          elimT := List.replicate m.rows [] } m.rows).parent m.rows (-1)
          childrenE := resizeL (etreeRun (buildAdjacency m.entries)
        { visited := ∅
          parent := resizeL [] m.rows (-1)
          childrenE := resizeL [] m.rows []
          elimT := List.replicate m.rows [] } m.rows).childrenE m.rows []
          elimT := List.replicate m.rows [] } m.rows).childrenE.getD i []) m.rows := by
    rw [hred2]
    show buildFronts (fun i =>
        (buildEtree (buildAdjacency m.entries) m.rows
          (analyzePattern freshSolver m).1.etree_parent
          (analyzePattern freshSolver m).1.etree_children).childrenE.getD i []) m.rows = _
    rw [hs1p, hs1c]
    rfl
  have hvars : ∀ v,
      ((analyzePattern (analyzePattern freshSolver m).1 m).1.fronts.getD v dFront).vars =
        ((analyzePattern freshSolver m).1.fronts.getD v dFront).vars := by
    intro v
    rw [hs1f, hs2f]
    by_cases hv : v < m.rows
    · rw [buildFronts_getD _ _ v hv, buildFronts_getD _ _ v hv]
      dsimp only
      show setInsertAll (setInsert v []) ((etreeRun (buildAdjacency m.entries)
        { visited := ∅
          parent := resizeL (etreeRun (buildAdjacency m.entries)
        { visited := ∅
          parent := resizeL [] m.rows (-1)
          childrenE := resizeL [] m.rows []
          elimT := List.replicate m.rows [] } m.rows).parent m.rows (-1)
          childrenE := resizeL (etreeRun (buildAdjacency m.entries)
        { visited := ∅
          parent := resizeL [] m.rows (-1)
          childrenE := resizeL [] m.rows []
          elimT := List.replicate m.rows [] } m.rows).childrenE m.rows []
          elimT := List.replicate m.rows [] } m.rows).childrenE.getD v []) =
        setInsertAll (setInsert v []) ((etreeRun (buildAdjacency m.entries)
        { visited := ∅
          parent := resizeL [] m.rows (-1)
          childrenE := resizeL [] m.rows []
          elimT := List.replicate m.rows [] } m.rows).childrenE.getD v [])
      rw [hdc v, setInsertAll_append]
      apply setInsertAll_subset_eq
      · exact getVariablesForNode_sorted (fun i => (etreeRun (buildAdjacency m.entries)
        { visited := ∅
          parent := resizeL [] m.rows (-1)
          childrenE := resizeL [] m.rows []
          elimT := List.replicate m.rows [] } m.rows).childrenE.getD i []) v
      · intro x hx
        apply List.mem_toFinset.mp
        rw [show setInsertAll (setInsert v []) ((etreeRun (buildAdjacency m.entries)
        { visited := ∅
          parent := resizeL [] m.rows (-1)
          childrenE := resizeL [] m.rows []
          elimT := List.replicate m.rows [] } m.rows).childrenE.getD v []) =
            getVariablesForNode (fun i => (etreeRun (buildAdjacency m.entries)
        { visited := ∅
          parent := resizeL [] m.rows (-1)
          childrenE := resizeL [] m.rows []
          elimT := List.replicate m.rows [] } m.rows).childrenE.getD i []) v from rfl,
          getVariablesForNode_toFinset]
        simp only [Finset.mem_insert, List.mem_toFinset]
        exact Or.inr hx
    · rw [buildFronts_getD_ge _ _ v (by omega), buildFronts_getD_ge _ _ v (by omega)]
  refine ⟨?_, ?_, ?_, hvars, ?_, ?_, ?_⟩
  · rw [hs1p, hs2p]
    exact hdp
  · rw [hs1e, hs2e]
    exact hde
  · intro p
    rw [hs1c, hs2c]
    exact hdc p
  · intro v
    rw [hs1f, hs2f]
    by_cases hv : v < m.rows
    · rw [buildFronts_getD _ _ v hv, buildFronts_getD _ _ v hv]
    · rw [buildFronts_getD_ge _ _ v (by omega), buildFronts_getD_ge _ _ v (by omega)]
  · intro v
    have hv2 := hvars v
    rw [hs1f, hs2f] at hv2 ⊢
    by_cases hv : v < m.rows
    · rw [buildFronts_getD _ _ v hv, buildFronts_getD _ _ v hv] at hv2 ⊢
      dsimp only at hv2 ⊢
      rw [hv2]
    · rw [buildFronts_getD_ge _ _ v (by omega), buildFronts_getD_ge _ _ v (by omega)]
  · intro v
    rw [hs1f, hs2f]
    by_cases hv : v < m.rows
    · rw [buildFronts_getD _ _ v hv, buildFronts_getD _ _ v hv]
      dsimp only
      exact hdc v
    · rw [buildFronts_getD_ge _ _ v (by omega), buildFronts_getD_ge _ _ v (by omega)]
      rfl

/-- Witness for the amended C6 at the matrix `M2`: parent arrays agree
and node 1's child list and front 1's dependencies are doubled. -/
theorem c6_amended_second_analyze_witness :
    M2.WellFormed ∧ M2.rows = M2.cols ∧ 0 < M2.rows ∧
    ((analyzePattern (analyzePattern freshSolver M2).1 M2).1.etree_parent =
      (analyzePattern freshSolver M2).1.etree_parent) ∧
    ((analyzePattern (analyzePattern freshSolver M2).1 M2).1.etree_children.getD 1 [] =
      (analyzePattern freshSolver M2).1.etree_children.getD 1 [] ++
        (analyzePattern freshSolver M2).1.etree_children.getD 1 []) ∧
    (((analyzePattern (analyzePattern freshSolver M2).1 M2).1.fronts.getD 1 dFront).dependencies
      = ((analyzePattern freshSolver M2).1.fronts.getD 1 dFront).dependencies ++
        ((analyzePattern freshSolver M2).1.fronts.getD 1 dFront).dependencies) :=
  ⟨by decide, rfl, by decide,
   (c6_amended_second_analyze M2 (by decide) rfl (by decide)).1,
   (c6_amended_second_analyze M2 (by decide) rfl (by decide)).2.2.1 1,
   (c6_amended_second_analyze M2 (by decide) rfl (by decide)).2.2.2.2.2.2 1⟩

end SDM
